import Mathlib

/-!
Shallow embedding of the IBM-HR-Analytics repository: the R script
`IBM-HR.R` and the Python notebook `Attrition_Risk.ipynb`.  Both artifacts
run a small batch pipeline over the IBM employee-attrition table: recode
the `Attrition` label, split rows into train/test partitions, fit
classifiers, threshold fitted probabilities and score them against the
ground truth.  The definitions below translate the functions and cell
sequences of those two scripts; probabilities are represented by rationals
and machine counts by naturals/integers.
-/

namespace IBMHR

/-! ## IBM-HR.R -/

/-- Embeds `recode_y` from IBM-HR.R: `ifelse(x == "No", 1, 0)`, applied to the
string values of the `Attrition` column. -/
def recode_y (x : String) : ℤ := if x = "No" then 1 else 0

/-- Embeds `assign_label` from IBM-HR.R: `ifelse(x > th, 1, 0)`, applied to a
fitted probability `x` and threshold `th` (the script calls it with 0.5). -/
def assign_label (x th : ℚ) : ℤ := if x > th then 1 else 0

/-- The inner `check` of `compare_lists` in IBM-HR.R: `ifelse(x, 1, 0)`. -/
def check (x : Bool) : ℤ := if x then 1 else 0

/-- Embeds `compare_lists` from IBM-HR.R: elementwise equality of two numeric
vectors, recoded to 1/0 by `check`. -/
def compare_lists (double1 double2 : List ℤ) : List ℤ :=
  ((double1.zip double2).map (fun p => p.1 == p.2)).map check

/-! ## Attrition_Risk.ipynb — thresholding lambdas -/

/-- The notebook's recoding lambda (the `predictions_results` cell):
`predictions_test.apply(lambda x: 0 if x > th else 1)` with `th = 0.5`.
The same lambda also recodes the training-set fitted values. -/
def predictions_recode (th x : ℚ) : ℤ := if x > th then 0 else 1

/-! ## Attrition_Risk.ipynb — confusion matrix and accuracies

The notebook computes `attr_forest_CM = confusion_matrix(ytest, preds)`.
Binary labels (`'No'`/`'Yes'`, which sklearn sorts so that `'No'` is
class 0 and `'Yes'` class 1) are modelled as `Bool` with `false` = class
0 = No and `true` = class 1 = Yes.  Rows of the matrix index the actual
class, columns the predicted class, exactly sklearn's convention. -/

/-- Entry `(i, j)` of sklearn's `confusion_matrix(actual, predicted)`:
the number of positions whose actual label is class `i` and predicted
label is class `j`. -/
def cm_entry (actual predicted : List Bool) (i j : Bool) : ℕ :=
  (actual.zip predicted).countP (fun ap => ap.1 == i && ap.2 == j)

/-- The directly computed number of correct predictions,
`count(predicted == actual)`, as in the notebook's
`sum(recodedpreds)/len(recodedpreds)` cell and the R script's
`sum(tempor)/length(tempor)`. -/
def match_count (actual predicted : List Bool) : ℕ :=
  (actual.zip predicted).countP (fun ap => ap.1 == ap.2)

/-- The notebook's `fm_test_acc = (tp + tn)/xtest.shape[0]` with
`tp = attr_forest_CM[1,1]` and `tn = attr_forest_CM[0,0]`. -/
def fm_test_acc (actual predicted : List Bool) (N : ℕ) : ℚ :=
  ((cm_entry actual predicted true true + cm_entry actual predicted false false : ℕ) : ℚ) / N

/-- The directly computed accuracy `count(predicted == actual) / N`. -/
def direct_acc (actual predicted : List Bool) (N : ℕ) : ℚ :=
  ((match_count actual predicted : ℕ) : ℚ) / N

/-! ## Attrition_Risk.ipynb — feature classifier

The notebook loads the CSV into `empattr` and classifies columns: cell 13
collects the object-dtype columns, cell 14 fixes the declared-categorical
list from the IBM metadata, cell 16 evaluates (and displays) the
intersection of the two sets, and cell 23 takes the numerical columns as
the set difference of all columns and `objcols + catcols`. -/

/-- A pandas column dtype, as far as the notebook inspects it: `'O'`
(object, i.e. string-valued) or a numeric dtype. -/
inductive Dtype
  | object
  | int64
  deriving DecidableEq, Repr

/-- A table schema: the column names in order, each with its dtype. -/
abbrev Schema := List (String × Dtype)

/-- Cell 13: `objcols = [c for c in empattr.columns if empattr[c].dtype == 'O']`. -/
def objcols (schema : Schema) : List String :=
  (schema.filter (fun c => c.2 == Dtype.object)).map (fun c => c.1)

/-- Cell 14: the declared-categorical (factor) columns from the IBM
dataset description. -/
def catcols : List String :=
  ["Education", "EnvironmentSatisfaction", "JobInvolvement", "JobSatisfaction",
   "PerformanceRating", "RelationshipSatisfaction", "WorkLifeBalance"]

/-- The column names of a schema, `empattr.columns`. -/
def colNames (schema : Schema) : List String := schema.map (fun c => c.1)

/-- Cell 16: `set(objcols).intersection(set(catcols))`, the value the
notebook displays. -/
def objcat_intersection (schema : Schema) : List String :=
  (objcols schema).filter (fun n => decide (n ∈ catcols))

/-- Cell 23: `empattr_numerical_cols =
list(set(empattr.columns.tolist()).difference(set(objcols + catcols)))`. -/
def empattr_numerical_cols (schema : Schema) : List String :=
  (colNames schema).filter (fun n => decide (n ∉ objcols schema ++ catcols))

/-- The union of the three classified column sets. -/
def unionCols (schema : Schema) : List String :=
  objcols schema ++ catcols ++ empattr_numerical_cols schema

/-- Whether an embedded pipeline step finished normally. -/
def runSucceeds {α : Type} (e : Except String α) : Bool :=
  match e with
  | Except.ok _ => true
  | Except.error _ => false

/-- Embeds notebook cells 13–16 as one step.  The cells compute
`objcols`, fix `catcols` and evaluate `set(objcols).intersection(set(catcols))`
for display; execution then continues unconditionally — the notebook
contains no `assert` and raises no error on a non-empty intersection, so
the step always returns `ok` with the classification and the displayed
intersection. -/
def classifierStep (schema : Schema) :
    Except String (List String × List String × List String) :=
  Except.ok (objcols schema, catcols, objcat_intersection schema)

/-- Modelled from the spec: the CSV data file
`WA_Fn-UseC_-HR-Employee-Attrition.csv` is not part of the repository, so
the loaded table's schema is reconstructed from the spec (§4.1: a fixed
known schema of 35 columns; §3 and the scripts name the fields).  The nine
string-valued columns (`Attrition` among them — both scripts compare its
values against the strings `"Yes"`/`"No"`) carry dtype `object`; every
other column is numeric. -/
def ibmSchema : Schema :=
  [("Age", Dtype.int64), ("Attrition", Dtype.object),
   ("BusinessTravel", Dtype.object), ("DailyRate", Dtype.int64),
   ("Department", Dtype.object), ("DistanceFromHome", Dtype.int64),
   ("Education", Dtype.int64), ("EducationField", Dtype.object),
   ("EmployeeCount", Dtype.int64), ("EmployeeNumber", Dtype.int64),
   ("EnvironmentSatisfaction", Dtype.int64), ("Gender", Dtype.object),
   ("HourlyRate", Dtype.int64), ("JobInvolvement", Dtype.int64),
   ("JobLevel", Dtype.int64), ("JobRole", Dtype.object),
   ("JobSatisfaction", Dtype.int64), ("MaritalStatus", Dtype.object),
   ("MonthlyIncome", Dtype.int64), ("MonthlyRate", Dtype.int64),
   ("NumCompaniesWorked", Dtype.int64), ("Over18", Dtype.object),
   ("OverTime", Dtype.object), ("PercentSalaryHike", Dtype.int64),
   ("PerformanceRating", Dtype.int64), ("RelationshipSatisfaction", Dtype.int64),
   ("StandardHours", Dtype.int64), ("StockOptionLevel", Dtype.int64),
   ("TotalWorkingYears", Dtype.int64), ("TrainingTimesLastYear", Dtype.int64),
   ("WorkLifeBalance", Dtype.int64), ("YearsAtCompany", Dtype.int64),
   ("YearsInCurrentRole", Dtype.int64), ("YearsSinceLastPromotion", Dtype.int64),
   ("YearsWithCurrManager", Dtype.int64)]

/-- A hypothetical input table on which the object-typed and
declared-categorical sets overlap: its `Education` column was parsed as
strings.  Used to exercise the classifier's behaviour on an invalid
classification. -/
def overlapSchema : Schema :=
  [("Age", Dtype.int64), ("Education", Dtype.object), ("Attrition", Dtype.object)]

/-! ## Attrition_Risk.ipynb — encoder (cells 72–75)

`newdf = empattr.copy()`; `newdf = newdf.drop(columns =
['EmployeeCount','StandardHours'])`; then for each `c` in `recodecols =
catcols + objcols`, `newdf[c] = LabelEncoder().fit_transform(newdf[c])`;
finally `newPreds = newdf.iloc[:, newdf.columns != 'Attrition']` and
`newY = newdf['Attrition']`.  A dataframe is modelled as its named
columns in order; a cell value is either a raw CSV string or an integer
code produced by the encoder. -/

/-- A cell value of the modelled dataframe. -/
inductive Val
  | str (s : String)
  | code (n : ℕ)
  deriving DecidableEq, Repr

/-- The order `np.unique` sorts a column's distinct values by: strings
compare as strings, codes as numbers.  (Within any one column all values
have the same constructor.) -/
def valLe : Val → Val → Prop
  | Val.str a, Val.str b => a ≤ b
  | Val.code a, Val.code b => a ≤ b
  | Val.str _, Val.code _ => False
  | Val.code _, Val.str _ => True

instance : DecidableRel valLe := fun a b =>
  match a, b with
  | Val.str a, Val.str b => inferInstanceAs (Decidable (a ≤ b))
  | Val.code a, Val.code b => inferInstanceAs (Decidable (a ≤ b))
  | Val.str _, Val.code _ => inferInstanceAs (Decidable False)
  | Val.code _, Val.str _ => inferInstanceAs (Decidable True)

instance : IsTotal Val valLe := by
  constructor
  intro a b
  cases a <;> cases b <;> simp [valLe] <;> apply le_total

instance : IsTrans Val valLe := by
  constructor
  intro a b c hab hbc
  cases a <;> cases b <;> cases c <;> simp [valLe] at hab hbc ⊢ <;>
    first
      | exact le_trans hab hbc
      | trivial

/-- A dataframe: named columns, each with its list of cell values. -/
abbrev DF := List (String × List Val)

/-- Column read `df[c]`: the values of the first column named `c` (the
columns of interest always exist). -/
def getCol : DF → String → List Val
  | [], _ => []
  | p :: df, c => if p.1 == c then p.2 else getCol df c

/-- Column write `df[c] = vs`: replaces the values of an existing column. -/
def setCol (df : DF) (c : String) (vs : List Val) : DF :=
  df.map (fun p => if p.1 == c then (p.1, vs) else p)

/-- The column names of a dataframe, `df.columns`. -/
def dfCols (df : DF) : List String := df.map (fun p => p.1)

/-- Column drop `df.drop(columns = names)`. -/
def dropColumns (names : List String) (df : DF) : DF :=
  df.filter (fun p => decide (p.1 ∉ names))

/-- sklearn's `LabelEncoder().fit_transform(col)`: the classes are the
distinct values of the column in sorted order, and each value is replaced
by its index among the classes. -/
def fit_transform (col : List Val) : List Val :=
  let classes := List.insertionSort valLe col.dedup
  col.map (fun x => Val.code (classes.indexOf x))

/-- Cell 74's loop: `for c in recodecols: newdf[c] =
LabelEncoder().fit_transform(newdf[c])`. -/
def encodeLoop (cols : List String) (df : DF) : DF :=
  cols.foldl (fun d c => setCol d c (fit_transform (getCol d c))) df

/-- Cell 74's `recodecols = catcols + objcols` (with `objcols` computed
from the loaded table's dtypes). -/
def recodecols : List String := catcols ++ objcols ibmSchema

/-- The interpreter state across cells 72–74: the loaded table `empattr`
and the working copy `newdf`. -/
structure NotebookEnv where
  empattr : DF
  newdf : DF

/-- Cell 72, `newdf = empattr.copy()`: pandas `.copy()` duplicates the
data, so `newdf` becomes an independent value equal to `empattr`. -/
def cell72 (e : NotebookEnv) : NotebookEnv := { e with newdf := e.empattr }

/-- Cell 73, `newdf = newdf.drop(columns = ['EmployeeCount','StandardHours'])`. -/
def cell73 (e : NotebookEnv) : NotebookEnv :=
  { e with newdf := dropColumns ["EmployeeCount", "StandardHours"] e.newdf }

/-- Cell 74, the `LabelEncoder` loop: every assignment in the loop
targets a column of `newdf`, so only the `newdf` component changes. -/
def cell74 (e : NotebookEnv) : NotebookEnv :=
  { e with newdf := encodeLoop recodecols e.newdf }

/-- Cells 72–74 in sequence, from a freshly loaded `empattr`. -/
def encoderCells (empattr : DF) : NotebookEnv :=
  cell74 (cell73 (cell72 { empattr := empattr, newdf := [] }))

/-- Cell 75: `newY = newdf['Attrition']`, the response the L1 logistic
regression is fit on. -/
def newY (empattr : DF) : List Val := getCol (encoderCells empattr).newdf "Attrition"

/-! ## Splitter

Both notebook paths call sklearn's `train_test_split(preds, resp,
test_size = f, random_state = seed)` (with `f = 0.2, seed = 0` for the
three-predictor path and `f = 0.25, seed = 0` for the full-feature
path). -/

/-- A 32-bit linear congruential step, the deterministic pseudo-random
source of the modelled splitter. -/
def lcg (x : ℕ) : ℕ := (1664525 * x + 1013904223) % 4294967296

/-- The seed-derived shuffle key of row index `i`. -/
def shuffleKey (seed i : ℕ) : ℕ := lcg (seed + 2654435761 * i)

/-- The shuffle order on row indices: keys compared first, ties broken by
the index, so the relation is total and antisymmetric. -/
def keyOrder (seed : ℕ) (a b : ℕ) : Prop :=
  shuffleKey seed a < shuffleKey seed b ∨
    (shuffleKey seed a = shuffleKey seed b ∧ a ≤ b)

instance (seed : ℕ) : DecidableRel (keyOrder seed) := fun _ _ =>
  inferInstanceAs (Decidable (_ ∨ _))

/-- Modelled from the spec: sklearn's `train_test_split` implementation is
not part of the repository; per spec §4.4 the splitter deterministically
shuffles the row indices `0, …, N-1` with the fixed seed.  The shuffle is
realised as sorting the indices by a seed-derived pseudo-random key. -/
def shuffledRange (seed N : ℕ) : List ℕ :=
  List.insertionSort (keyOrder seed) (List.range N)

/-- Modelled from the spec: the splitter (spec §4.4) partitions the
shuffled row indices, taking `round(fraction · N)` of them as the test
partition and the rest as the training partition.  Returns
(train indices, test indices). -/
def train_test_split (N : ℕ) (test_size : ℚ) (random_state : ℕ) :
    List ℕ × List ℕ :=
  let order := shuffledRange random_state N
  let nTest := (round (test_size * N)).toNat
  (order.drop nTest, order.take nTest)

/-! ## Theorems -/

/-- C1: the two scripts use opposite sign/label conventions at threshold
0.5: for every probability strictly above the threshold the R script's
`assign_label` returns 1 while the notebook's recoding lambda returns 0;
otherwise `assign_label` returns 0 and the lambda returns 1; hence for
every probability strictly above the threshold the two scripts assign
opposite (distinct) numeric labels. -/
theorem C1_opposite_threshold_conventions :
    (∀ p : ℚ, p > 1/2 → assign_label p (1/2) = 1 ∧ predictions_recode (1/2) p = 0)
    ∧ (∀ p : ℚ, ¬ p > 1/2 → assign_label p (1/2) = 0 ∧ predictions_recode (1/2) p = 1)
    ∧ ∀ p : ℚ, p > 1/2 → assign_label p (1/2) ≠ predictions_recode (1/2) p := by
  refine ⟨fun p hp => ?_, fun p hp => ?_, fun p hp => ?_⟩
  · exact ⟨by unfold assign_label; rw [if_pos hp],
      by unfold predictions_recode; rw [if_pos hp]⟩
  · exact ⟨by unfold assign_label; rw [if_neg hp],
      by unfold predictions_recode; rw [if_neg hp]⟩
  · unfold assign_label predictions_recode
    rw [if_pos hp, if_pos hp]
    exact one_ne_zero

/-- Witness for C1 at the concrete probability 3/4. -/
theorem C1_opposite_threshold_conventions_witness :
    assign_label (3/4) (1/2) = 1 ∧ predictions_recode (1/2) (3/4) = 0 :=
  C1_opposite_threshold_conventions.1 (3/4) (by norm_num)

/-- C7: the R script's `recode_y` maps "No" to 1 and "Yes" to 0, is a
bijection from the Attrition domain onto 0/1, and recoding a vector with
`sapply` preserves its length. -/
theorem C7_recode_y_bijection :
    recode_y "No" = 1 ∧ recode_y "Yes" = 0
    ∧ Set.BijOn recode_y {"Yes", "No"} {0, 1}
    ∧ ∀ xs : List String, (xs.map recode_y).length = xs.length := by
  refine ⟨rfl, rfl, ⟨?_, ?_, ?_⟩, fun xs => by simp⟩
  · rintro x (rfl | rfl) <;> simp [recode_y]
  · rintro x (rfl | rfl) y (rfl | rfl) h <;> simp_all [recode_y]
  · rintro z (rfl | rfl)
    · exact ⟨"Yes", Or.inl rfl, by simp [recode_y]⟩
    · exact ⟨"No", Or.inr rfl, by simp [recode_y]⟩

/-- Witness for C7: the two concrete label values. -/
theorem C7_recode_y_bijection_witness : recode_y "No" = 1 ∧ recode_y "Yes" = 0 :=
  ⟨C7_recode_y_bijection.1, C7_recode_y_bijection.2.1⟩

/-- On any list of (actual, predicted) binary label pairs, the two
diagonal confusion counts add up to the number of equal pairs. -/
theorem countP_diag_eq_match (l : List (Bool × Bool)) :
    l.countP (fun ap => ap.1 == true && ap.2 == true)
      + l.countP (fun ap => ap.1 == false && ap.2 == false)
    = l.countP (fun ap => ap.1 == ap.2) := by
  induction l with
  | nil => rfl
  | cons a l ih =>
    obtain ⟨x, y⟩ := a
    cases x <;> cases y <;> simp [List.countP_cons] at ih ⊢ <;> omega

/-- On any list of (actual, predicted) binary label pairs, the four
confusion cells partition the list. -/
theorem countP_cells_total (l : List (Bool × Bool)) :
    l.countP (fun ap => ap.1 == false && ap.2 == false)
    + l.countP (fun ap => ap.1 == false && ap.2 == true)
    + l.countP (fun ap => ap.1 == true && ap.2 == false)
    + l.countP (fun ap => ap.1 == true && ap.2 == true)
    = l.length := by
  induction l with
  | nil => rfl
  | cons a l ih =>
    obtain ⟨x, y⟩ := a
    cases x <;> cases y <;> simp [List.countP_cons] at ih ⊢ <;> omega

/-- C2: for every pair of predicted/actual binary label vectors of length
N, the accuracy derived from the confusion matrix as (tp + tn)/N equals
the directly computed fraction count(predicted == actual)/N. -/
theorem C2_cm_accuracy_eq_direct (predicted actual : List Bool) (N : ℕ)
    (hp : predicted.length = N) (ha : actual.length = N) :
    fm_test_acc actual predicted N = direct_acc actual predicted N := by
  unfold fm_test_acc direct_acc cm_entry match_count
  rw [countP_diag_eq_match]

/-- Witness for C2 on concrete three-element label vectors. -/
theorem C2_cm_accuracy_eq_direct_witness :
    fm_test_acc [true, false, true] [true, true, false] 3
      = direct_acc [true, false, true] [true, true, false] 3 :=
  C2_cm_accuracy_eq_direct [true, true, false] [true, false, true] 3 rfl rfl

/-- C9: for every test set of size M, the four random-forest confusion
matrix entries are non-negative integers and sum to M. -/
theorem C9_cm_entries_nonneg_sum (predicted actual : List Bool) (M : ℕ)
    (hp : predicted.length = M) (ha : actual.length = M) :
    (∀ i j : Bool, 0 ≤ (cm_entry actual predicted i j : ℤ))
    ∧ cm_entry actual predicted false false + cm_entry actual predicted false true
      + cm_entry actual predicted true false + cm_entry actual predicted true true = M := by
  constructor
  · intro i j
    exact Int.natCast_nonneg _
  · unfold cm_entry
    rw [countP_cells_total, List.length_zip, ha, hp, min_self]

/-- Witness for C9 on concrete two-element label vectors. -/
theorem C9_cm_entries_nonneg_sum_witness :
    cm_entry [true, false] [false, false] false false
      + cm_entry [true, false] [false, false] false true
      + cm_entry [true, false] [false, false] true false
      + cm_entry [true, false] [false, false] true true = 2 :=
  (C9_cm_entries_nonneg_sum [false, false] [true, false] 2 rfl rfl).2

/-- C5 counterexample: on a table whose `Education` column is string-valued
the object-typed and declared-categorical column sets overlap, yet the
classifier step still finishes normally — the notebook asserts nothing and
reports no validation failure. -/
theorem C5_no_assert_counterexample :
    objcat_intersection overlapSchema ≠ []
      ∧ runSucceeds (classifierStep overlapSchema) = true := by
  decide

/-- C5 (amended): cells 13–16 compute and display the intersection of the
object-typed and declared-categorical column sets — empty on the modelled
dataset — but emptiness is only displayed, never asserted: for every
schema, overlapping or not, the classifier step finishes normally and the
run proceeds. -/
theorem C5_intersection_displayed_not_asserted :
    objcat_intersection ibmSchema = []
      ∧ ∀ schema : Schema, runSucceeds (classifierStep schema) = true :=
  ⟨by decide, fun _ => rfl⟩

/-- C6 counterexample: `Attrition` is object-typed, hence belongs to the
union of the three classified column sets, whereas the claim's right-hand
side — the full column set minus the response column — excludes it; so
the union is not the full column set minus `Attrition`. -/
theorem C6_union_counterexample :
    "Attrition" ∈ objcols ibmSchema
      ∧ "Attrition" ∈ unionCols ibmSchema
      ∧ "Attrition" ∉ (colNames ibmSchema).filter (fun n => decide (n ≠ "Attrition")) := by
  decide

/-- C6 (amended): for the loaded table the object-typed,
declared-categorical and numerical column sets are pairwise disjoint and
their union is the full column set; the response column `Attrition` is a
member of the object-typed set, so the union includes it rather than
excluding it. -/
theorem C6_classification_partition :
    (∀ n ∈ objcols ibmSchema, n ∉ catcols)
    ∧ (∀ n ∈ objcols ibmSchema, n ∉ empattr_numerical_cols ibmSchema)
    ∧ (∀ n ∈ catcols, n ∉ empattr_numerical_cols ibmSchema)
    ∧ (∀ n ∈ colNames ibmSchema, n ∈ unionCols ibmSchema)
    ∧ (∀ n ∈ unionCols ibmSchema, n ∈ colNames ibmSchema)
    ∧ "Attrition" ∈ objcols ibmSchema := by
  decide

/-- Witness for C6 at the concrete column `Attrition`. -/
theorem C6_classification_partition_witness :
    "Attrition" ∉ catcols ∧ "Attrition" ∈ unionCols ibmSchema :=
  ⟨C6_classification_partition.1 "Attrition" (by decide),
   C6_classification_partition.2.2.2.1 "Attrition" (by decide)⟩

/-- C8: the encoder writes only into the working copy: after the
copy/drop/encode cells the originally loaded table is unchanged, column
by column. -/
theorem C8_encoder_leaves_original_untouched (empattr : DF) :
    (encoderCells empattr).empattr = empattr
      ∧ ∀ c : String, getCol (encoderCells empattr).empattr c = getCol empattr c :=
  ⟨rfl, fun _ => rfl⟩

/-- Lemma: `setCol` keeps the column names. -/
theorem dfCols_setCol (df : DF) (c : String) (vs : List Val) :
    dfCols (setCol df c vs) = dfCols df := by
  unfold dfCols setCol
  rw [List.map_map]
  apply List.map_congr_left
  intro p _
  by_cases h : p.1 = c <;> simp [h, Function.comp]

/-- Unfolding equation: `setCol` on a cons cell. -/
theorem setCol_cons (p : String × List Val) (df : DF) (c : String) (vs : List Val) :
    setCol (p :: df) c vs = (if p.1 == c then (p.1, vs) else p) :: setCol df c vs := rfl

/-- Unfolding equation: `dropColumns` on a cons cell. -/
theorem dropColumns_cons (names : List String) (p : String × List Val) (df : DF) :
    dropColumns names (p :: df)
      = if p.1 ∈ names then dropColumns names df else p :: dropColumns names df := by
  by_cases h : p.1 ∈ names <;> simp [dropColumns, List.filter_cons, h]

/-- Unfolding equation: `dfCols` on a cons cell. -/
theorem dfCols_cons (p : String × List Val) (df : DF) :
    dfCols (p :: df) = p.1 :: dfCols df := rfl

/-- Reading a column other than the one just written is unaffected. -/
theorem getCol_setCol_ne (df : DF) (c c2 : String) (vs : List Val)
    (h : c2 ≠ c) : getCol (setCol df c vs) c2 = getCol df c2 := by
  induction df with
  | nil => rfl
  | cons p df ih =>
    rw [setCol_cons]
    by_cases h1 : p.1 = c
    · have h2 : p.1 ≠ c2 := fun hh => h (by rw [← hh, h1])
      simp [getCol, h1, h2, ih, h, Ne.symm h]
    · by_cases h2 : p.1 = c2 <;> simp [getCol, h1, h2, ih, h, Ne.symm h]

/-- Reading back the column just written gives the written values. -/
theorem getCol_setCol_self (df : DF) (c : String) (vs : List Val)
    (h : c ∈ dfCols df) : getCol (setCol df c vs) c = vs := by
  induction df with
  | nil => exact absurd h (by simp [dfCols])
  | cons p df ih =>
    rw [setCol_cons]
    by_cases h1 : p.1 = c
    · simp [getCol, h1]
    · have h2 : c ∈ dfCols df := by
        rw [dfCols_cons] at h
        rcases List.mem_cons.1 h with h3 | h3
        · exact absurd h3.symm h1
        · exact h3
      simp [getCol, h1, ih h2]

/-- The encoding loop keeps the column names. -/
theorem dfCols_encodeLoop (cols : List String) (df : DF) :
    dfCols (encodeLoop cols df) = dfCols df := by
  induction cols generalizing df with
  | nil => rfl
  | cons c cols ih =>
    show dfCols (encodeLoop cols (setCol df c _)) = dfCols df
    rw [ih, dfCols_setCol]

/-- A column not in the list being recoded is unaffected by the loop. -/
theorem getCol_encodeLoop_notMem (cols : List String) (df : DF) (c : String)
    (h : c ∉ cols) : getCol (encodeLoop cols df) c = getCol df c := by
  induction cols generalizing df with
  | nil => rfl
  | cons c0 cols ih =>
    have hne : c ≠ c0 := fun hh => h (by rw [hh]; exact List.mem_cons_self c0 cols)
    have hni : c ∉ cols := fun hh => h (List.mem_cons_of_mem _ hh)
    show getCol (encodeLoop cols (setCol df c0 _)) c = getCol df c
    rw [ih _ hni, getCol_setCol_ne _ _ _ _ hne]

/-- A column recoded exactly once in the loop ends up holding the encoder
output of its value at that iteration. -/
theorem getCol_encodeLoop_once (pre post : List String) (df : DF) (c : String)
    (hpre : c ∉ pre) (hpost : c ∉ post) (hmem : c ∈ dfCols df) :
    getCol (encodeLoop (pre ++ c :: post) df) c = fit_transform (getCol df c) := by
  unfold encodeLoop
  rw [List.foldl_append, List.foldl_cons]
  show getCol (encodeLoop post (setCol (encodeLoop pre df) c
    (fit_transform (getCol (encodeLoop pre df) c)))) c = _
  rw [getCol_encodeLoop_notMem post _ c hpost,
    getCol_setCol_self _ _ _ (by rw [dfCols_encodeLoop]; exact hmem),
    getCol_encodeLoop_notMem pre df c hpre]

/-- Reading a column that was not dropped is unaffected by the drop. -/
theorem getCol_dropColumns_notMem (names : List String) (df : DF) (c : String)
    (h : c ∉ names) : getCol (dropColumns names df) c = getCol df c := by
  induction df with
  | nil => rfl
  | cons p df ih =>
    rw [dropColumns_cons]
    by_cases h1 : p.1 ∈ names
    · have h2 : p.1 ≠ c := fun hh => h (by rw [← hh]; exact h1)
      simp [getCol, h1, h2, ih, h]
    · by_cases h2 : p.1 = c <;> simp [getCol, h1, h2, ih, h]

/-- A column that was not dropped is still present after the drop. -/
theorem mem_dfCols_dropColumns (names : List String) (df : DF) (c : String)
    (h : c ∉ names) (hmem : c ∈ dfCols df) :
    c ∈ dfCols (dropColumns names df) := by
  induction df with
  | nil => exact absurd hmem (by simp [dfCols])
  | cons p df ih =>
    rw [dropColumns_cons]
    rw [dfCols_cons] at hmem
    rcases List.mem_cons.1 hmem with h3 | h3
    · have h1 : p.1 ∉ names := by rw [← h3]; exact h
      rw [if_neg h1, dfCols_cons]
      exact List.mem_cons.2 (Or.inl h3)
    · by_cases h1 : p.1 ∈ names
      · rw [if_pos h1]
        exact ih h3
      · rw [if_neg h1, dfCols_cons]
        exact List.mem_cons.2 (Or.inr (ih h3))

/-- Unfolding equation for `newY`. -/
theorem newY_eq (e : DF) : newY e = getCol (encoderCells e).newdf "Attrition" := rfl

/-- The working copy produced by cells 72-74: drop the two constant
columns, then label-encode the `recodecols`. -/
theorem encoderCells_newdf (e : DF) :
    (encoderCells e).newdf
      = encodeLoop recodecols (dropColumns ["EmployeeCount", "StandardHours"] e) := by
  simp only [encoderCells, cell74, cell73, cell72]

/-- For a column whose values are exactly the strings "No" and "Yes"
(both present), the encoder's sorted class list is `["No", "Yes"]`. -/
theorem classes_no_yes (col : List Val)
    (hno : Val.str "No" ∈ col) (hyes : Val.str "Yes" ∈ col)
    (hdom : ∀ v ∈ col, v = Val.str "No" ∨ v = Val.str "Yes") :
    List.insertionSort valLe col.dedup = [Val.str "No", Val.str "Yes"] := by
  have hnd : col.dedup.Nodup := List.nodup_dedup col
  have hpair : ([Val.str "No", Val.str "Yes"] : List Val).Nodup := by decide
  have hperm0 : List.Perm col.dedup [Val.str "No", Val.str "Yes"] := by
    apply (List.perm_ext_iff_of_nodup hnd hpair).2
    intro v
    rw [List.mem_dedup]
    constructor
    · intro hv
      rcases hdom v hv with h | h <;> simp [h]
    · intro hv
      rcases (by simpa using hv : v = Val.str "No" ∨ v = Val.str "Yes") with h | h
      · exact h ▸ hno
      · exact h ▸ hyes
  have hperm : List.Perm (List.insertionSort valLe col.dedup) [Val.str "No", Val.str "Yes"] :=
    (List.perm_insertionSort valLe col.dedup).trans hperm0
  have hsorted : List.Sorted valLe (List.insertionSort valLe col.dedup) :=
    List.sorted_insertionSort valLe col.dedup
  have hlen : (List.insertionSort valLe col.dedup).length = 2 := by
    rw [hperm.length_eq]
    rfl
  rcases List.length_eq_two.1 hlen with ⟨a, b, hab⟩
  have hmema : a ∈ [Val.str "No", Val.str "Yes"] := hperm.mem_iff.1 (by rw [hab]; simp)
  have hmemb : b ∈ [Val.str "No", Val.str "Yes"] := hperm.mem_iff.1 (by rw [hab]; simp)
  have hnd2 : ([a, b] : List Val).Nodup := hab ▸ (hperm.nodup_iff.2 hpair)
  have hne : a ≠ b := by
    intro hh
    rw [hh] at hnd2
    simp at hnd2
  have hr : valLe a b := by
    rw [hab] at hsorted
    exact (List.sorted_cons.1 hsorted).1 b (by simp)
  rw [hab]
  rcases (by simpa using hmema : a = Val.str "No" ∨ a = Val.str "Yes") with ha | ha <;>
    rcases (by simpa using hmemb : b = Val.str "No" ∨ b = Val.str "Yes") with hb | hb
  · exact absurd (ha.trans hb.symm) hne
  · rw [ha, hb]
  · exfalso
    rw [ha, hb] at hr
    have hlt : "No" < "Yes" := by
      rw [String.lt_iff_toList_lt]
      decide
    exact absurd (show ("Yes" : String) ≤ "No" from hr) (not_le.2 hlt)
  · exact absurd (ha.trans hb.symm) hne

/-- On a Yes/No column the encoder maps "No" to code 0 and "Yes" to
code 1 (the classes are sorted, and "No" sorts before "Yes"). -/
theorem fit_transform_no_yes (col : List Val)
    (hno : Val.str "No" ∈ col) (hyes : Val.str "Yes" ∈ col)
    (hdom : ∀ v ∈ col, v = Val.str "No" ∨ v = Val.str "Yes") :
    fit_transform col
      = col.map (fun v => if v = Val.str "No" then Val.code 0 else Val.code 1) := by
  show col.map (fun x => Val.code ((List.insertionSort valLe col.dedup).indexOf x)) = _
  rw [classes_no_yes col hno hyes hdom]
  apply List.map_congr_left
  intro v hv
  rcases hdom v hv with h | h <;> rw [h] <;> rfl

/-- C10: `Attrition` is itself a member of the object-typed column list
being recoded, so the response `newY` used to fit the L1 logistic
regression is the label-encoded integer column with "No" mapped to 0 and
"Yes" mapped to 1 — unlike the R script's `recode_y`, which maps "No" to
1 and "Yes" to 0. -/
theorem C10_response_label_encoded (empattr : DF)
    (hmem : "Attrition" ∈ dfCols empattr)
    (hno : Val.str "No" ∈ getCol empattr "Attrition")
    (hyes : Val.str "Yes" ∈ getCol empattr "Attrition")
    (hdom : ∀ v ∈ getCol empattr "Attrition", v = Val.str "No" ∨ v = Val.str "Yes") :
    "Attrition" ∈ recodecols
    ∧ newY empattr
        = (getCol empattr "Attrition").map
            (fun v => if v = Val.str "No" then Val.code 0 else Val.code 1)
    ∧ recode_y "No" = 1 ∧ recode_y "Yes" = 0 := by
  refine ⟨by decide, ?_, rfl, rfl⟩
  have hobj : objcols ibmSchema
      = "Attrition" :: ["BusinessTravel", "Department", "EducationField",
        "Gender", "JobRole", "MaritalStatus", "Over18", "OverTime"] := by decide
  have hsplit : recodecols = catcols ++ "Attrition" ::
      ["BusinessTravel", "Department", "EducationField", "Gender", "JobRole",
       "MaritalStatus", "Over18", "OverTime"] := by
    unfold recodecols
    rw [hobj]
  rw [newY_eq, encoderCells_newdf, hsplit, getCol_encodeLoop_once _ _ _ _ (by decide) (by decide)
      (mem_dfCols_dropColumns _ _ _ (by decide) hmem),
    getCol_dropColumns_notMem _ _ _ (by decide)]
  exact fit_transform_no_yes _ hno hyes hdom

/-- Witness for C10 on a concrete three-row table: "Yes", "No", "No"
encodes to codes 1, 0, 0. -/
theorem C10_response_label_encoded_witness :
    newY [("Attrition", [Val.str "Yes", Val.str "No", Val.str "No"]),
          ("Age", [Val.code 41, Val.code 49, Val.code 37])]
      = [Val.code 1, Val.code 0, Val.code 0] := by
  have h := (C10_response_label_encoded
      [("Attrition", [Val.str "Yes", Val.str "No", Val.str "No"]),
       ("Age", [Val.code 41, Val.code 49, Val.code 37])]
      (by decide) (by decide) (by decide) (by decide)).2.1
  rw [h]
  decide

/-- Unfolding equation for `train_test_split`. -/
theorem train_test_split_eq (N : ℕ) (f : ℚ) (seed : ℕ) :
    train_test_split N f seed
      = ((shuffledRange seed N).drop (round (f * N)).toNat,
         (shuffledRange seed N).take (round (f * N)).toNat) := rfl

/-- C3: the splitter partitions the row set: train and test index sets
are disjoint, their union is the full row set (their sizes sum to N), and
the test partition has round(fraction · N) rows; in particular an 80/20
split of the 1470-row dataset yields 1176 training and 294 test rows. -/
theorem C3_split_partition (N : ℕ) (f : ℚ) (seed : ℕ)
    (h0 : 0 ≤ f) (h1 : f ≤ 1) :
    (∀ i, ¬ (i ∈ (train_test_split N f seed).1 ∧ i ∈ (train_test_split N f seed).2))
    ∧ (∀ i, (i ∈ (train_test_split N f seed).1 ∨ i ∈ (train_test_split N f seed).2) ↔ i < N)
    ∧ (train_test_split N f seed).1.length + (train_test_split N f seed).2.length = N
    ∧ (train_test_split N f seed).2.length = (round (f * N)).toNat
    ∧ (N = 1470 → f = 1/5 → (train_test_split N f seed).1.length = 1176
        ∧ (train_test_split N f seed).2.length = 294) := by
  rw [train_test_split_eq]
  set l := shuffledRange seed N with hl
  set nTest := (round (f * N)).toNat with hn
  have horder : List.Perm l (List.range N) := List.perm_insertionSort _ _
  have hlen : l.length = N := horder.length_eq.trans (List.length_range N)
  have hnd : l.Nodup := horder.nodup_iff.2 (List.nodup_range N)
  have hround : round (f * N) ≤ ((N : ℕ) : ℤ) := by
    have hfn : f * N ≤ ((N : ℕ) : ℚ) := by
      calc f * N ≤ 1 * N := by
            apply mul_le_mul_of_nonneg_right h1 (by positivity)
        _ = ((N : ℕ) : ℚ) := one_mul _
    have hmono : round (f * N) ≤ round (((N : ℕ) : ℚ)) := by
      rw [round_eq, round_eq]
      exact Int.floor_le_floor (by linarith)
    rw [round_natCast] at hmono
    exact hmono
  have hle : nTest ≤ N := by
    rw [hn]
    exact Int.toNat_le.2 hround
  have hsplit_l : l.take nTest ++ l.drop nTest = l := List.take_append_drop _ _
  have hdisj : List.Disjoint (l.take nTest) (l.drop nTest) := by
    apply List.disjoint_of_nodup_append
    rw [hsplit_l]
    exact hnd
  have hmem : ∀ i : ℕ, (i ∈ l.drop nTest ∨ i ∈ l.take nTest) ↔ i < N := by
    intro i
    rw [or_comm, ← List.mem_append, hsplit_l, horder.mem_iff, List.mem_range]
  have hlente : (l.take nTest).length = nTest := by
    rw [List.length_take, hlen]
    exact min_eq_left hle
  have hlentr : (l.drop nTest).length = N - nTest := by
    rw [List.length_drop, hlen]
  refine ⟨fun i hi => hdisj hi.2 hi.1, hmem, ?_, hlente, fun hN hf => ?_⟩
  · rw [hlente, hlentr]
    omega
  · have h294 : nTest = 294 := by
      have hc : f * N = ((294 : ℕ) : ℚ) := by
        rw [hN, hf]
        norm_num
      rw [hn, hc, round_natCast]
      rfl
    constructor
    · rw [hlentr, h294, hN]
    · rw [hlente, h294]

/-- Witness for C3 at N = 5, fraction 2/5, seed 3. -/
theorem C3_split_partition_witness :
    (train_test_split 5 (2/5) 3).1.length + (train_test_split 5 (2/5) 3).2.length = 5 :=
  (C3_split_partition 5 (2/5) 3 (by norm_num) (by norm_num)).2.2.1

/-- C4: the splitter is deterministic — two runs on the same row count,
test fraction and seed produce identical train/test partitions. -/
theorem C4_split_deterministic (N1 N2 : ℕ) (f1 f2 : ℚ) (seed1 seed2 : ℕ)
    (hN : N1 = N2) (hf : f1 = f2) (hs : seed1 = seed2) :
    train_test_split N1 f1 seed1 = train_test_split N2 f2 seed2 := by
  rw [hN, hf, hs]

/-- Witness for C4 at two runs with N = 10, fraction 1/5, seed 0. -/
theorem C4_split_deterministic_witness :
    train_test_split 10 (1/5) 0 = train_test_split 10 (1/5) 0 :=
  C4_split_deterministic 10 10 (1/5) (1/5) 0 0 rfl rfl rfl

end IBMHR
